import Mathlib

/-!
Verification of the intel4004 instruction-set emulator (mikalstill/intel4004).

The definitions below are a shallow embedding of `intel4004/registers.py` and
`intel4004/emulator.py`.  Python's in-place mutation with exceptions is modelled
by functions returning `α × Option EmuError` (or `Register × Option RegError`):
the first component is the object state at the moment the call returns or the
exception propagates, the second is `some e` when the Python code would raise.
Machine integers are `Nat`/`Int` with explicit bound checks exactly where the
source performs them.
-/

namespace Intel4004

/-- A Python value passed to `Register.set`: either an `int` or a value of some
other type (the source checks `type(value) != int`). -/
inductive PyVal where
  | int (z : Int)
  | nonInt
deriving DecidableEq

/-- Exceptions raised by `registers.py`: `ValueOutOfBounds` and `ValueInvalid`
(both subclasses of `ValueError`). -/
inductive RegError where
  | valueOutOfBounds
  | valueInvalid
deriving DecidableEq

/-- `registers.Register`: a named bounded value cell.  `max_value` is
`2^width - 1` for the width-1, 4, 8 and 12 subclasses. -/
structure Register where
  name : String
  maxValue : Nat
  value : Nat
deriving DecidableEq

/-- `Register.set`: raises `ValueInvalid` for a non-int, `ValueOutOfBounds` for
a negative or too-large value, and only then commits `self.value = value`.
On failure the returned register is the receiver, unchanged. -/
def Register.set (r : Register) (v : PyVal) : Register × Option RegError :=
  match v with
  | .nonInt => (r, some .valueInvalid)
  | .int z =>
    if z < 0 then (r, some .valueOutOfBounds)
    else if z > (r.maxValue : Int) then (r, some .valueOutOfBounds)
    else ({ r with value := z.toNat }, none)

/-- Helper for `Register.get_inverted`: the loop
`for pow in range(0, num_bits): if not value & 2**pow: out += 2**pow`. -/
def get_invertedGo (value : Nat) : Nat → Nat
  | 0 => 0
  | n + 1 => get_invertedGo value n + (if value &&& 2 ^ n = 0 then 2 ^ n else 0)

/-- `Register.get_inverted`: bitwise complement computed over exactly
`num_bits` bits. -/
def get_inverted (numBits value : Nat) : Nat :=
  get_invertedGo value numBits

/-- `registers.EightBitPhantomRegister`: an 8-bit view over two 4-bit
registers. -/
structure EightBitPhantomRegister where
  highReg : Register
  lowReg : Register
deriving DecidableEq

/-- `EightBitPhantomRegister.set`: type check, then the 8-bit range checks,
then `high_reg.set(value >> 4)` followed by `low_reg.set(value & 0x0F)`. -/
def EightBitPhantomRegister.set (p : EightBitPhantomRegister) (v : PyVal) :
    EightBitPhantomRegister × Option RegError :=
  match v with
  | .nonInt => (p, some .valueInvalid)
  | .int z =>
    if z < 0 then (p, some .valueOutOfBounds)
    else if z > 255 then (p, some .valueOutOfBounds)
    else
      match p.highReg.set (.int ((z.toNat >>> 4 : Nat) : Int)) with
      | (h, some e) => ({ p with highReg := h }, some e)
      | (h, none) =>
        match p.lowReg.set (.int ((z.toNat &&& 0x0F : Nat) : Int)) with
        | (l, some e) => ({ p with highReg := h, lowReg := l }, some e)
        | (l, none) => ({ highReg := h, lowReg := l }, none)

/-- `EightBitPhantomRegister.get`: `(high << 4) + low`. -/
def EightBitPhantomRegister.get (p : EightBitPhantomRegister) : Nat :=
  (p.highReg.value <<< 4) + p.lowReg.value

/-- Exceptions visible at the emulator layer: `ValueOutOfBounds` /
`ValueInvalid` from register writes, `UnknownOpcode` from the registry, and
Python's `IndexError` from an out-of-range list assignment in `set_rom`. -/
inductive EmuError where
  | valueOutOfBounds
  | valueInvalid
  | unknownOpcode
  | indexError
deriving DecidableEq

/-- `Register.set` as used by the emulator on `int` arguments: the emulator's
registers hold plain `Nat` values, so only the two range checks remain. -/
def registerSet (maxValue : Nat) (value : Int) : Except EmuError Nat :=
  if value < 0 then .error .valueOutOfBounds
  else if value > (maxValue : Int) then .error .valueOutOfBounds
  else .ok value.toNat

/-- Modelled from the spec: `registers.CircularBuffer` is referenced by
`emulator.py` and `test_registers.py` but its definition is absent from
`src/intel4004/registers.py`.  Per the spec it holds three 12-bit slots and a
write cursor; `push` writes at the cursor and advances it modulo 3, `pop`
decrements the cursor modulo 3 and returns that slot's value.  The slots are
`TwelveBitRegister`s, so a pushed value passes the 12-bit range check. -/
structure CircularBuffer where
  slots : Nat → Nat
  cursor : Nat

/-- Modelled from the spec: `CircularBuffer.push` writes the address at the
cursor slot (a 12-bit register write) and advances the cursor modulo 3.  On a
failed register write the buffer is unchanged. -/
def CircularBuffer.push (cb : CircularBuffer) (v : Nat) :
    CircularBuffer × Option EmuError :=
  match registerSet 4095 (v : Int) with
  | .error e => (cb, some e)
  | .ok v' =>
    ({ slots := fun i => if i = cb.cursor then v' else cb.slots i,
       cursor := (cb.cursor + 1) % 3 }, none)

/-- Modelled from the spec: `CircularBuffer.pop` decrements the cursor modulo
3 and returns the value of that slot. -/
def CircularBuffer.pop (cb : CircularBuffer) : CircularBuffer × Nat :=
  let c := (cb.cursor + 3 - 1) % 3
  ({ cb with cursor := c }, cb.slots c)

/-- A decoded opcode handler with its pre-bound operand, as registered by
`Intel4004.__init__` via `functools.partial`. -/
inductive Instr where
  | nop
  | clb
  | clc
  | iac
  | dac
  | inc (r : Nat)
  | add (r : Nat)
  | sub (r : Nat)
  | ld (r : Nat)
  | xch (r : Nat)
  | fim (p : Nat)
  | jin (p : Nat)
  | bbl (v : Nat)
  | ldm (v : Nat)
  | jcn (c : Nat)
  | jun (a : Nat)
  | jms (a : Nat)
deriving DecidableEq

/-- The opcode registry exactly as populated by `Intel4004.__init__`: fixed
single-byte opcodes, the per-4-bit-register families (`range(16)`), the
per-8-bit-register families (`0x20 | (i << 1)` and `0x30 | (i << 1) | 0x01`
for `i in range(8)`), the immediate families (`range(16)`), and the two-byte
jump families registered with `range(2**4 - 1)`, i.e. operands 0 through 14
only. -/
def registryEntries : List (Nat × Instr) :=
  [(0x00, .nop), (0xF0, .clb), (0xF1, .clc), (0xF2, .iac), (0xF8, .dac)]
  ++ (List.range 16).map (fun i => (0x60 + i, Instr.inc i))
  ++ (List.range 16).map (fun i => (0x80 + i, Instr.add i))
  ++ (List.range 16).map (fun i => (0x90 + i, Instr.sub i))
  ++ (List.range 16).map (fun i => (0xA0 + i, Instr.ld i))
  ++ (List.range 16).map (fun i => (0xB0 + i, Instr.xch i))
  ++ (List.range 8).map (fun i => (0x20 ||| (i <<< 1), Instr.fim i))
  ++ (List.range 8).map (fun i => (0x30 ||| (i <<< 1) ||| 0x01, Instr.jin i))
  ++ (List.range 16).map (fun i => (0xC0 + i, Instr.bbl i))
  ++ (List.range 16).map (fun i => (0xD0 + i, Instr.ldm i))
  ++ (List.range (2 ^ 4 - 1)).map (fun i => (0x10 + i, Instr.jcn i))
  ++ (List.range (2 ^ 4 - 1)).map (fun i => (0x40 + i, Instr.jun i))
  ++ (List.range (2 ^ 4 - 1)).map (fun i => (0x50 + i, Instr.jms i))

/-- `OpcodeRegistry.lookup`: raises `UnknownOpcode` when no handler is
registered for the byte. -/
def lookup (opcode : Nat) : Except EmuError Instr :=
  match registryEntries.find? (fun e => e.fst == opcode) with
  | none => .error .unknownOpcode
  | some e => .ok e.snd

/-- The mutable state of `emulator.Intel4004`: the sixteen 4-bit registers
(`regs i` for `i < 16`; the eight 8-bit registers are phantom views over
pairs of these), the 12-bit program counter, the 4-bit accumulator, the 1-bit
carry, the 8-bit data pointer, the 1-bit test pin, the 3-slot return stack and
the 4096-byte instruction store (`rom a` for `a < 4096`). -/
structure State where
  regs : Nat → Nat
  pc : Nat
  acc : Nat
  carry : Nat
  dp : Nat
  testPin : Nat
  stack : CircularBuffer
  rom : Nat → Nat

/-- `Intel4004.__init__`: every register, the stack and the instruction store
start at zero. -/
def initState : State where
  regs := fun _ => 0
  pc := 0
  acc := 0
  carry := 0
  dp := 0
  testPin := 0
  stack := { slots := fun _ => 0, cursor := 0 }
  rom := fun _ => 0

/-- `Intel4004.set_rom`: `for i in range(len(rom)): self.rom[address + i] =
rom[i]`.  Each list assignment is valid only for an index up to 4095; the
first out-of-range index raises `IndexError`, after all earlier bytes have
already been written. -/
def set_rom (s : State) (address : Nat) (data : List Nat) :
    State × Option EmuError :=
  match data with
  | [] => (s, none)
  | b :: rest =>
    if address ≤ 4095 then
      set_rom { s with rom := fun j => if j = address then b else s.rom j }
        (address + 1) rest
    else (s, some .indexError)

/-- `opcode_noop` (0x00). -/
def opcode_noop (s : State) : State × Option EmuError := (s, none)

/-- `opcode_jcn` (0x10+c): reads the operand byte, advances the counter, then
evaluates the condition by sequential overwrite of `result` (bit 0: test pin
is 0; bit 1: carry is 1; bit 2: accumulator is 0; bit 3: invert), and on a
true result replaces the counter with `(pc & 0x0F00) + operand`. -/
def opcode_jcn (condition : Nat) (s : State) : State × Option EmuError :=
  let possible_address := s.rom s.pc
  match registerSet 4095 ((s.pc : Int) + 1) with
  | .error e => (s, some e)
  | .ok pc1 =>
    let s := { s with pc := pc1 }
    let result := false
    let result := if condition &&& 0x01 ≠ 0 then s.testPin == 0 else result
    let result := if condition &&& 0x02 ≠ 0 then s.carry == 1 else result
    let result := if condition &&& 0x04 ≠ 0 then s.acc == 0 else result
    let result := if condition &&& 0x08 ≠ 0 then !result else result
    if result then
      match registerSet 4095 (((s.pc &&& 0x0F00) + possible_address : Nat) : Int) with
      | .error e => (s, some e)
      | .ok pc2 => ({ s with pc := pc2 }, none)
    else (s, none)

/-- `opcode_fim` (0x2_, even): loads the operand byte into the addressed
phantom 8-bit register (high nibble into register `2p`, low nibble into
register `2p+1`), then advances the counter. -/
def opcode_fim (p : Nat) (s : State) : State × Option EmuError :=
  let value := s.rom s.pc
  if (value : Int) > 255 then (s, some .valueOutOfBounds)
  else
    let s := { s with
      regs := fun i =>
        if i = 2 * p then value >>> 4
        else if i = 2 * p + 1 then value &&& 0x0F
        else s.regs i }
    match registerSet 4095 ((s.pc : Int) + 1) with
    | .error e => (s, some e)
    | .ok pc1 => ({ s with pc := pc1 }, none)

/-- `opcode_jin` (0x3_, odd): keeps the counter's top four bits and ors in
the addressed phantom register's value. -/
def opcode_jin (p : Nat) (s : State) : State × Option EmuError :=
  let address := (s.pc &&& 0x0F00) ||| ((s.regs (2 * p) <<< 4) + s.regs (2 * p + 1))
  match registerSet 4095 (address : Int) with
  | .error e => (s, some e)
  | .ok pc1 => ({ s with pc := pc1 }, none)

/-- `opcode_jms` (0x50+a): forms the target from the opcode's four bits and
the operand byte, pushes the address after the instruction, then jumps. -/
def opcode_jms (top_four_bits_of_address : Nat) (s : State) :
    State × Option EmuError :=
  let new_address := (top_four_bits_of_address <<< 8) + s.rom s.pc
  let return_address := s.pc + 1
  match s.stack.push return_address with
  | (stack1, some e) => ({ s with stack := stack1 }, some e)
  | (stack1, none) =>
    let s := { s with stack := stack1 }
    match registerSet 4095 (new_address : Int) with
    | .error e => (s, some e)
    | .ok pc1 => ({ s with pc := pc1 }, none)

/-- `opcode_inc` (0x6_): increments the register; a `ValueOutOfBounds` from
the bounded increment is caught and the register is set to 0 instead. -/
def opcode_inc (r : Nat) (s : State) : State × Option EmuError :=
  match registerSet 15 ((s.regs r : Int) + 1) with
  | .error _ => ({ s with regs := fun i => if i = r then 0 else s.regs i }, none)
  | .ok v => ({ s with regs := fun i => if i = r then v else s.regs i }, none)

/-- `opcode_jun` (0x40+a): jumps to the 12-bit address formed from the
opcode's four bits and the operand byte. -/
def opcode_jun (top_four_bits_of_address : Nat) (s : State) :
    State × Option EmuError :=
  let address := (top_four_bits_of_address <<< 8) + s.rom s.pc
  match registerSet 4095 (address : Int) with
  | .error e => (s, some e)
  | .ok pc1 => ({ s with pc := pc1 }, none)

/-- `opcode_add` (0x8_): `value = acc + carry + reg`; on overflow of the
4-bit maximum sets carry to 1 and subtracts 16; stores the value in the
accumulator.  Carry is not written on a non-overflowing add. -/
def opcode_add (r : Nat) (s : State) : State × Option EmuError :=
  let value := s.acc + s.carry + s.regs r
  if value > 15 then
    let s1 := { s with carry := 1 }
    match registerSet 15 ((value : Int) - 16) with
    | .error e => (s1, some e)
    | .ok a => ({ s1 with acc := a }, none)
  else
    match registerSet 15 (value : Int) with
    | .error e => (s, some e)
    | .ok a => ({ s with acc := a }, none)

/-- `opcode_sub` (0x9_): one's-complement subtraction: adds the 4-bit
complement of the register and the 1-bit complement of carry, then resolves
bit 4 of the raw sum into the carry flag. -/
def opcode_sub (r : Nat) (s : State) : State × Option EmuError :=
  let value := s.acc + get_inverted 4 (s.regs r) + get_inverted 1 s.carry
  if value &&& 0b00010000 = 0 then
    let s1 := { s with carry := 0 }
    match registerSet 15 (value : Int) with
    | .error e => (s1, some e)
    | .ok a => ({ s1 with acc := a }, none)
  else
    let s1 := { s with carry := 1 }
    match registerSet 15 ((value : Int) - 16) with
    | .error e => (s1, some e)
    | .ok a => ({ s1 with acc := a }, none)

/-- `opcode_ld` (0xA_): copies the register into the accumulator. -/
def opcode_ld (r : Nat) (s : State) : State × Option EmuError :=
  match registerSet 15 (s.regs r : Int) with
  | .error e => (s, some e)
  | .ok a => ({ s with acc := a }, none)

/-- `opcode_xch` (0xB_): exchanges the accumulator with the register. -/
def opcode_xch (r : Nat) (s : State) : State × Option EmuError :=
  let rv := s.regs r
  match registerSet 15 (s.acc : Int) with
  | .error e => (s, some e)
  | .ok v =>
    let s := { s with regs := fun i => if i = r then v else s.regs i }
    match registerSet 15 (rv : Int) with
    | .error e => (s, some e)
    | .ok a => ({ s with acc := a }, none)

/-- `opcode_bbl` (0xC_): pops the return stack into the counter and loads the
immediate value into the accumulator. -/
def opcode_bbl (value : Nat) (s : State) : State × Option EmuError :=
  let p := s.stack.pop
  let s := { s with stack := p.fst }
  match registerSet 4095 (p.snd : Int) with
  | .error e => (s, some e)
  | .ok pc1 =>
    let s := { s with pc := pc1 }
    match registerSet 15 (value : Int) with
    | .error e => (s, some e)
    | .ok a => ({ s with acc := a }, none)

/-- `opcode_ldm` (0xD_): loads the immediate value into the accumulator. -/
def opcode_ldm (value : Nat) (s : State) : State × Option EmuError :=
  match registerSet 15 (value : Int) with
  | .error e => (s, some e)
  | .ok a => ({ s with acc := a }, none)

/-- `opcode_clb` (0xF0): clears carry and accumulator. -/
def opcode_clb (s : State) : State × Option EmuError :=
  ({ s with carry := 0, acc := 0 }, none)

/-- `opcode_clc` (0xF1): clears carry. -/
def opcode_clc (s : State) : State × Option EmuError :=
  ({ s with carry := 0 }, none)

/-- `opcode_iac` (0xF2): bounded accumulator increment; raises
`ValueOutOfBounds` at 15 with the accumulator unchanged. -/
def opcode_iac (s : State) : State × Option EmuError :=
  match registerSet 15 ((s.acc : Int) + 1) with
  | .error e => (s, some e)
  | .ok a => ({ s with acc := a }, none)

/-- `opcode_dac` (0xF8): decrements the accumulator; when the result would be
negative it clears carry and stores 0xE, otherwise it sets carry to 1 and
stores the decremented value. -/
def opcode_dac (s : State) : State × Option EmuError :=
  let acc : Int := (s.acc : Int) - 1
  if acc < 0 then
    ({ s with carry := 0, acc := 0xE }, none)
  else
    let s := { s with carry := 1 }
    match registerSet 15 acc with
    | .error e => (s, some e)
    | .ok a => ({ s with acc := a }, none)

/-- Dispatches a registered handler, mirroring the `partial`-bound functions
stored in the registry. -/
def execInstr : Instr → State → State × Option EmuError
  | .nop => opcode_noop
  | .clb => opcode_clb
  | .clc => opcode_clc
  | .iac => opcode_iac
  | .dac => opcode_dac
  | .inc r => opcode_inc r
  | .add r => opcode_add r
  | .sub r => opcode_sub r
  | .ld r => opcode_ld r
  | .xch r => opcode_xch r
  | .fim p => opcode_fim p
  | .jin p => opcode_jin p
  | .bbl v => opcode_bbl v
  | .ldm v => opcode_ldm v
  | .jcn c => opcode_jcn c
  | .jun a => opcode_jun a
  | .jms a => opcode_jms a

/-- `Intel4004.step`: reads `rom[pc]`, increments the counter (a bounded
12-bit register write), then looks up and invokes the handler. -/
def step (s : State) : State × Option EmuError :=
  let opcode := s.rom s.pc
  match registerSet 4095 ((s.pc : Int) + 1) with
  | .error e => (s, some e)
  | .ok pc1 =>
    let s1 := { s with pc := pc1 }
    match lookup opcode with
    | .error e => (s1, some e)
    | .ok instr => execInstr instr s1

instance : DecidableEq (Except EmuError Instr) := fun
  | .error a, .error b =>
    if h : a = b then .isTrue (by rw [h])
    else .isFalse (by intro hc; cases hc; exact h rfl)
  | .error _, .ok _ => .isFalse (by intro h; cases h)
  | .ok _, .error _ => .isFalse (by intro h; cases h)
  | .ok a, .ok b =>
    if h : a = b then .isTrue (by rw [h])
    else .isFalse (by intro hc; cases hc; exact h rfl)

/-- A successful bounded register write commits the value. -/
theorem registerSet_ok (maxValue : Nat) (v : Int) (h0 : 0 ≤ v)
    (h1 : v ≤ (maxValue : Int)) : registerSet maxValue v = .ok v.toNat := by
  unfold registerSet
  rw [if_neg (by omega), if_neg (by omega)]

/-- A bounded register write of a too-large value raises `ValueOutOfBounds`. -/
theorem registerSet_high (maxValue : Nat) (v : Int)
    (h1 : (maxValue : Int) < v) :
    registerSet maxValue v = .error .valueOutOfBounds := by
  unfold registerSet
  rcases lt_or_le v 0 with h | h
  · rw [if_pos h]
  · rw [if_neg (by omega), if_pos (by omega)]

/-- C1: freshly constructed processor state is fully zeroed — the sixteen
4-bit registers, the accumulator, the carry flag, the program counter, the
test pin, the data pointer, each of the three return-stack slots (and the
stack cursor), and every byte of the 4096-byte instruction store are all 0. -/
theorem initState_all_zero :
    (∀ i : Nat, initState.regs i = 0) ∧ initState.acc = 0 ∧
    initState.carry = 0 ∧ initState.pc = 0 ∧ initState.testPin = 0 ∧
    initState.dp = 0 ∧ (∀ j : Nat, initState.stack.slots j = 0) ∧
    initState.stack.cursor = 0 ∧ (∀ a : Nat, initState.rom a = 0) :=
  ⟨fun _ => rfl, rfl, rfl, rfl, rfl, rfl, fun _ => rfl, rfl, fun _ => rfl⟩

/-- C10: in each two-byte jump family (JCN 0x10+i, JUN 0x40+i, JMS 0x50+i)
exactly the fifteen operand encodings 0 through 14 are registered — looking
up the top encoding (0x1F, 0x4F, 0x5F) fails with `UnknownOpcode` — while the
immediate families 0xC0-0xCF and 0xD0-0xDF cover all sixteen encodings. -/
theorem jump_family_registration :
    ∀ i : Fin 16,
      (lookup (0x10 + i.val) = Except.error EmuError.unknownOpcode ↔ i.val = 15) ∧
      (lookup (0x40 + i.val) = Except.error EmuError.unknownOpcode ↔ i.val = 15) ∧
      (lookup (0x50 + i.val) = Except.error EmuError.unknownOpcode ↔ i.val = 15) ∧
      lookup (0xC0 + i.val) ≠ Except.error EmuError.unknownOpcode ∧
      lookup (0xD0 + i.val) ≠ Except.error EmuError.unknownOpcode := by
  decide

/-- C2 counterexample: with the accumulator at 0, executing opcode 0xF8 (DAC)
stores 0xE = 14 in the accumulator, not 15 as claimed, and clears carry. -/
theorem dac_wrap_not_fifteen :
    (step { initState with rom := fun a => if a = 0 then 0xF8 else 0 }).fst.acc ≠ 15 ∧
    (step { initState with rom := fun a => if a = 0 then 0xF8 else 0 }).fst.acc = 14 ∧
    (step { initState with rom := fun a => if a = 0 then 0xF8 else 0 }).fst.carry = 0 := by
  refine ⟨?_, rfl, rfl⟩
  decide

/-- C2 amended: for any accumulator value at most 15, DAC with accumulator 0
stores 14 (0xE) and clears carry; with accumulator a > 0 it stores a - 1 and
sets carry to 1. -/
theorem opcode_dac_semantics (s : State) (h : s.acc ≤ 15) :
    opcode_dac s =
      (if s.acc = 0 then { s with acc := 0xE, carry := 0 }
       else { s with acc := s.acc - 1, carry := 1 }, none) := by
  unfold opcode_dac
  by_cases h0 : s.acc = 0
  · rw [if_pos (by omega), if_pos h0]
  · rw [if_neg (by omega), registerSet_ok 15 _ (by omega) (by omega),
      if_neg h0]
    have ht : ((s.acc : Int) - 1).toNat = s.acc - 1 := by omega
    rw [ht]

/-- C2 amended witness: DAC at accumulator 5 stores 4 and sets carry. -/
theorem opcode_dac_semantics_check :
    (opcode_dac { initState with acc := 5 }).fst.acc = 4 ∧
    (opcode_dac { initState with acc := 5 }).fst.carry = 1 := by
  have h := opcode_dac_semantics { initState with acc := 5 } (by decide)
  rw [h]
  exact ⟨rfl, rfl⟩

/-- C3 counterexample: with the program counter at 4095, `step` raises
`ValueOutOfBounds` from the counter increment and leaves the counter at 4095
— it does not wrap to 0. -/
theorem step_at_4095_raises :
    (step { initState with pc := 4095 }).snd = some EmuError.valueOutOfBounds ∧
    (step { initState with pc := 4095 }).fst.pc = 4095 := by
  exact ⟨rfl, rfl⟩

/-- Characterization of `step`: fetch uses the pre-increment counter, the
handler then runs with the counter advanced by 1; at pc = 4095 the bounded
counter write fails before dispatch, leaving the state unchanged. -/
theorem step_characterization (s : State) :
    step s =
      if s.pc < 4095 then
        match lookup (s.rom s.pc) with
        | .error e => ({ s with pc := s.pc + 1 }, some e)
        | .ok instr => execInstr instr { s with pc := s.pc + 1 }
      else (s, some EmuError.valueOutOfBounds) := by
  unfold step
  by_cases h : s.pc < 4095
  · rw [registerSet_ok 4095 _ (by omega) (by omega), if_pos h]
    have ht : ((s.pc : Int) + 1).toNat = s.pc + 1 := by omega
    rw [ht]
  · rw [registerSet_high 4095 _ (by omega), if_neg h]

/-- C3 amended: `step` first reads `rom[pc]` and then advances the counter to
pc + 1 before dispatching, for every pc below 4095; at pc = 4095 (or beyond)
the bounded counter write fails with `ValueOutOfBounds` before dispatch,
leaving the whole state unchanged — the counter does not wrap modulo 2^12. -/
theorem step_fetch_then_advance (s : State) :
    step s =
      if s.pc < 4095 then
        match lookup (s.rom s.pc) with
        | .error e => ({ s with pc := s.pc + 1 }, some e)
        | .ok instr => execInstr instr { s with pc := s.pc + 1 }
      else (s, some EmuError.valueOutOfBounds) :=
  step_characterization s

/-- C8 counterexample: with pc = 4095 and an unregistered byte (0xFF) there,
`step` raises `ValueOutOfBounds` from the counter increment instead of
`UnknownOpcode`, and the counter has not been advanced. -/
theorem unknown_opcode_at_4095 :
    lookup 0xFF = Except.error EmuError.unknownOpcode ∧
    (step { initState with pc := 4095, rom := fun _ => 0xFF }).snd =
      some EmuError.valueOutOfBounds ∧
    (step { initState with pc := 4095, rom := fun _ => 0xFF }).fst.pc = 4095 := by
  exact ⟨rfl, rfl, rfl⟩

/-- C8 amended: for every state with pc below 4095 whose instruction store
holds an unregistered byte at pc, `step` raises `UnknownOpcode` with the
counter advanced by exactly 1 and every other component unchanged. -/
theorem step_unknown_opcode (s : State) (hpc : s.pc < 4095)
    (h : lookup (s.rom s.pc) = Except.error EmuError.unknownOpcode) :
    step s = ({ s with pc := s.pc + 1 }, some EmuError.unknownOpcode) := by
  rw [step_characterization, if_pos hpc, h]

/-- C8 amended witness: at pc = 0 on a store full of the unregistered byte
0xFF, `step` raises `UnknownOpcode` and only the counter changes. -/
theorem step_unknown_opcode_check :
    step { initState with rom := fun _ => 0xFF } =
      ({ initState with rom := fun _ => 0xFF, pc := 1 },
       some EmuError.unknownOpcode) := by
  have h := step_unknown_opcode { initState with rom := fun _ => 0xFF }
    (by decide) rfl
  exact h

/-- C7: for every valid accumulator, carry and register value, ADD stores
(acc + carry + reg) mod 16 in the accumulator, sets carry to 1 exactly when
the sum exceeds 15, and leaves carry untouched (in particular never clears
it) when the sum does not overflow. -/
theorem opcode_add_semantics (r : Nat) (s : State) (ha : s.acc ≤ 15)
    (hc : s.carry ≤ 1) (hr : s.regs r ≤ 15) :
    opcode_add r s =
      ({ s with acc := (s.acc + s.carry + s.regs r) % 16,
                carry := if s.acc + s.carry + s.regs r > 15 then 1
                         else s.carry }, none) := by
  simp only [opcode_add]
  by_cases h : s.acc + s.carry + s.regs r > 15
  · rw [if_pos h, if_pos h,
      registerSet_ok 15 _ (by omega) (by omega)]
    have ht : ((s.acc + s.carry + s.regs r : Nat) : Int) - 16 =
        (((s.acc + s.carry + s.regs r) % 16 : Nat) : Int) := by omega
    rw [ht, Int.toNat_natCast]
  · rw [if_neg h, if_neg h,
      registerSet_ok 15 _ (by omega) (by omega), Int.toNat_natCast]
    have hm : (s.acc + s.carry + s.regs r) % 16 = s.acc + s.carry + s.regs r := by
      omega
    rw [hm]

/-- The spec's ADD scenario state: accumulator 6, carry 0, register 14
holding 9. -/
def addScenario : State :=
  { initState with acc := 6, regs := fun i => if i = 14 then 9 else 0 }

/-- C7 witness: the spec's scenario — accumulator 6, carry 0, register 14
holding 9 — yields accumulator 0x0F with carry still 0. -/
theorem opcode_add_semantics_check :
    (opcode_add 14 addScenario).fst.acc = 15 ∧
    (opcode_add 14 addScenario).fst.carry = 0 := by
  have h := opcode_add_semantics 14 addScenario (by decide) (by decide) (by decide)
  rw [h]
  exact ⟨rfl, rfl⟩

/-- C6: JCN's condition is evaluated by sequential overwrite, so only the
highest-numbered set bit among bits 0 (test pin is 0), 1 (carry is 1) and 2
(accumulator is 0) determines the pre-inversion result; bit 3 negates it.  On
a true final result the low 8 bits of the twice-incremented counter are
replaced by the operand byte with the high 4 bits unchanged; otherwise the
counter is left pointing past both instruction bytes. -/
theorem opcode_jcn_semantics (c : Nat) (s : State) (hpc : s.pc < 4095)
    (hop : s.rom s.pc ≤ 255) :
    opcode_jcn c s =
      (let base : Bool :=
         if c &&& 0x04 ≠ 0 then s.acc == 0
         else if c &&& 0x02 ≠ 0 then s.carry == 1
         else if c &&& 0x01 ≠ 0 then s.testPin == 0
         else false
       let taken : Bool := if c &&& 0x08 ≠ 0 then !base else base
       if taken then ({ s with pc := ((s.pc + 1) &&& 0x0F00) + s.rom s.pc }, none)
       else ({ s with pc := s.pc + 1 }, none)) := by
  have hband : (s.pc + 1) &&& 0x0F00 ≤ 0x0F00 := Nat.and_le_right
  simp only [opcode_jcn]
  rw [registerSet_ok 4095 _ (by omega) (by omega)]
  have ht : ((s.pc : Int) + 1).toNat = s.pc + 1 := by omega
  rw [ht]
  have hinner : registerSet 4095
      ((((s.pc + 1) &&& 0x0F00 : Nat) : Int) + ((s.rom s.pc : Nat) : Int)) =
      .ok (((s.pc + 1) &&& 0x0F00) + s.rom s.pc) := by
    rw [← Nat.cast_add, registerSet_ok 4095 _ (by omega) (by omega),
      Int.toNat_natCast]
  by_cases h1 : c &&& 0x01 = 0 <;> by_cases h2 : c &&& 0x02 = 0 <;>
    by_cases h4 : c &&& 0x04 = 0 <;> by_cases h8 : c &&& 0x08 = 0 <;>
    simp [h1, h2, h4, h8, hinner]

/-- The test suite's taken-JCN scenario as seen by the handler: the counter
is already past the opcode byte at 0x0B12 and points at the operand 0x23. -/
def jcnScenario : State :=
  { initState with pc := 0x0B13, rom := fun a => if a = 0x0B13 then 0x23 else 0 }

/-- C6 witness: the test suite's taken-jump scenario — test pin 0, counter at
0x0B12 with bytes 0x11, 0x23 — sends the handler (condition nibble 1, counter
already past the opcode byte) to 0x0B23. -/
theorem opcode_jcn_semantics_check :
    (opcode_jcn 1 jcnScenario).fst.pc = 0x0B23 := by
  have h := opcode_jcn_semantics 1 jcnScenario (by decide) (by decide)
  rw [h]
  rfl

/-- C9: the return stack is a three-slot ring: each push writes at the cursor
and advances it modulo 3, so pushing a, b, c, d in order from the initial
buffer fills slots 0, 1, 2 and then silently overwrites slot 0 with d (no
overflow error), leaving the cursor at 1; successive pops decrement the
cursor modulo 3 and return d, c, b. -/
theorem circular_buffer_lifo (a b c d : Nat) (ha : a ≤ 4095) (hb : b ≤ 4095)
    (hc : c ≤ 4095) (hd : d ≤ 4095) :
    let cb0 : CircularBuffer := { slots := fun _ => 0, cursor := 0 }
    let cb1 := (cb0.push a).fst
    let cb2 := (cb1.push b).fst
    let cb3 := (cb2.push c).fst
    let cb4 := (cb3.push d).fst
    cb1.slots 0 = a ∧ cb2.slots 1 = b ∧ cb3.slots 2 = c ∧
    (cb3.push d).snd = none ∧ cb4.slots 0 = d ∧ cb4.cursor = 1 ∧
    cb4.pop.snd = d ∧ cb4.pop.fst.pop.snd = c ∧
    cb4.pop.fst.pop.fst.pop.snd = b := by
  have h1 : registerSet 4095 (a : Int) = .ok a := by
    rw [registerSet_ok 4095 _ (by omega) (by omega), Int.toNat_natCast]
  have h2 : registerSet 4095 (b : Int) = .ok b := by
    rw [registerSet_ok 4095 _ (by omega) (by omega), Int.toNat_natCast]
  have h3 : registerSet 4095 (c : Int) = .ok c := by
    rw [registerSet_ok 4095 _ (by omega) (by omega), Int.toNat_natCast]
  have h4 : registerSet 4095 (d : Int) = .ok d := by
    rw [registerSet_ok 4095 _ (by omega) (by omega), Int.toNat_natCast]
  simp [CircularBuffer.push, CircularBuffer.pop, h1, h2, h3, h4]

/-- C9 witness: the test suite's scenario — pushing 1, 2, 3, 4 leaves slot 0
holding 4 and pops return 4, 3, 2. -/
theorem circular_buffer_lifo_check :
    let cb0 : CircularBuffer := { slots := fun _ => 0, cursor := 0 }
    let cb1 := (cb0.push 1).fst
    let cb2 := (cb1.push 2).fst
    let cb3 := (cb2.push 3).fst
    let cb4 := (cb3.push 4).fst
    cb1.slots 0 = 1 ∧ cb2.slots 1 = 2 ∧ cb3.slots 2 = 3 ∧
    (cb3.push 4).snd = none ∧ cb4.slots 0 = 4 ∧ cb4.cursor = 1 ∧
    cb4.pop.snd = 4 ∧ cb4.pop.fst.pop.snd = 3 ∧
    cb4.pop.fst.pop.fst.pop.snd = 2 :=
  circular_buffer_lifo 1 2 3 4 (by decide) (by decide) (by decide) (by decide)

/-- C4 counterexample: loading the bytes [1, 2] at start address 4095 writes
the first byte into rom[4095] and only then raises `IndexError` at index
4096 — the failure is neither a RangeError nor raised before mutation. -/
theorem set_rom_partial_write :
    (set_rom initState 4095 [1, 2]).snd = some EmuError.indexError ∧
    (set_rom initState 4095 [1, 2]).fst.rom 4095 = 1 :=
  ⟨rfl, rfl⟩

/-- C4 amended: `set_rom` copies bytes one at a time from the start address;
it succeeds exactly when the data is empty or the written range stays within
the 4096-byte store, and otherwise raises `IndexError` at the first
out-of-range index — after every in-range byte has already been written, so
the failure is not all-or-nothing. -/
theorem set_rom_spec (data : List Nat) : ∀ (s : State) (address : Nat),
    ((set_rom s address data).snd = none ↔
      (data = [] ∨ address + data.length ≤ 4096)) ∧
    (∀ a : Nat, a ≤ 4095 →
      (set_rom s address data).fst.rom a =
        if address ≤ a ∧ a < address + data.length then data.getD (a - address) 0
        else s.rom a) := by
  induction data with
  | nil =>
    intro s address
    refine ⟨by simp [set_rom], ?_⟩
    intro a ha
    simp only [set_rom, List.length_nil]
    rw [if_neg (by omega)]
  | cons b rest ih =>
    intro s address
    by_cases hA : address ≤ 4095
    · constructor
      · simp only [set_rom, if_pos hA]
        rw [(ih _ (address + 1)).1]
        rcases rest with _ | ⟨x, xs⟩ <;> simp <;> omega
      · intro a ha
        simp only [set_rom, if_pos hA]
        rw [(ih _ (address + 1)).2 a ha]
        simp only [List.length_cons]
        by_cases hEq : a = address
        · subst hEq
          rw [if_neg (by omega), if_pos (by omega)]
          simp
        · by_cases hIn : address + 1 ≤ a ∧ a < address + 1 + rest.length
          · rw [if_pos hIn, if_pos (by omega)]
            have hstep : a - address = (a - (address + 1)) + 1 := by omega
            rw [hstep, List.getD_cons_succ]
          · rw [if_neg hIn, if_neg (by omega), if_neg (by omega)]
    · constructor
      · simp only [set_rom, if_neg hA]
        simp only [List.length_cons]
        simp
        omega
      · intro a ha
        simp only [set_rom, if_neg hA, List.length_cons]
        rw [if_neg (by omega)]

/-- C4 amended witness: loading [7, 8] at address 10 succeeds and the byte at
address 11 reads back as 8. -/
theorem set_rom_spec_check :
    (set_rom initState 10 [7, 8]).snd = none ∧
    (set_rom initState 10 [7, 8]).fst.rom 11 = 8 := by
  constructor
  · exact (set_rom_spec [7, 8] initState 10).1.mpr (by decide)
  · have h := (set_rom_spec [7, 8] initState 10).2 11 (by decide)
    rw [h]
    decide

/-- A `Register.set` of an in-range int passes both bound checks and commits
the value. -/
theorem Register.set_int_ok (r : Register) (z : Int) (h0 : 0 ≤ z)
    (h1 : z ≤ (r.maxValue : Int)) :
    r.set (.int z) = ({ r with value := z.toNat }, none) := by
  simp only [Register.set]
  rw [if_neg (by omega), if_neg (by omega)]

/-- An `EightBitPhantomRegister.set` of an in-range int over 4-bit delegates
writes the high nibble to the high delegate and the low nibble to the low
delegate. -/
theorem phantom_set_int_ok (p : EightBitPhantomRegister)
    (hh : p.highReg.maxValue = 15) (hl : p.lowReg.maxValue = 15) (z : Int)
    (h0 : ¬z < 0) (h1 : ¬z > 255) :
    p.set (.int z) =
      ({ highReg := { p.highReg with value := z.toNat >>> 4 },
         lowReg := { p.lowReg with value := z.toNat &&& 0x0F } }, none) := by
  have hb : z.toNat >>> 4 ≤ 15 := by
    rw [Nat.shiftRight_eq_div_pow]
    omega
  have hhi := Register.set_int_ok p.highReg ((z.toNat >>> 4 : Nat) : Int)
    (by exact_mod_cast Nat.zero_le _) (by rw [hh]; exact_mod_cast hb)
  have hlb : z.toNat &&& 0x0F ≤ 15 := Nat.and_le_right
  have hlo := Register.set_int_ok p.lowReg ((z.toNat &&& 0x0F : Nat) : Int)
    (by exact_mod_cast Nat.zero_le _) (by rw [hl]; exact_mod_cast hlb)
  simp [EightBitPhantomRegister.set, h0, h1, hhi, hlo]

/-- C5: for a bounded register (the width-w instances use max value 2^w - 1)
and for the 8-bit phantom register over two 4-bit delegates, `set(v)`
succeeds exactly when v is an int with 0 ≤ v ≤ max; any failed `set` (range
or type) leaves the register observably unchanged. -/
theorem register_set_range_safety (r : Register) (v : PyVal)
    (p : EightBitPhantomRegister) (hh : p.highReg.maxValue = 15)
    (hl : p.lowReg.maxValue = 15) :
    (((r.set v).snd = none) ↔
      ∃ z, v = PyVal.int z ∧ 0 ≤ z ∧ z ≤ (r.maxValue : Int)) ∧
    ((r.set v).snd ≠ none → (r.set v).fst = r) ∧
    (((p.set v).snd = none) ↔ ∃ z, v = PyVal.int z ∧ 0 ≤ z ∧ z ≤ 255) ∧
    ((p.set v).snd ≠ none → (p.set v).fst = p) := by
  cases v with
  | nonInt =>
    refine ⟨?_, ?_, ?_, ?_⟩ <;> simp [Register.set, EightBitPhantomRegister.set]
  | int z =>
    refine ⟨?_, ?_, ?_, ?_⟩
    · by_cases h0 : z < 0
      · simp [Register.set, h0]
      · by_cases h1 : z > (r.maxValue : Int)
        · simp [Register.set, h0, h1]
        · simp [Register.set, h0, h1]
          omega
    · intro hne
      by_cases h0 : z < 0
      · simp [Register.set, h0]
      · by_cases h1 : z > (r.maxValue : Int)
        · simp [Register.set, h0, h1]
        · exact absurd (by simp [Register.set, h0, h1]) hne
    · by_cases h0 : z < 0
      · simp [EightBitPhantomRegister.set, h0]
      · by_cases h1 : z > 255
        · simp [EightBitPhantomRegister.set, h0, h1]
        · rw [phantom_set_int_ok p hh hl z h0 h1]
          simp
          omega
    · intro hne
      by_cases h0 : z < 0
      · simp [EightBitPhantomRegister.set, h0]
      · by_cases h1 : z > 255
        · simp [EightBitPhantomRegister.set, h0, h1]
        · exact absurd (by rw [phantom_set_int_ok p hh hl z h0 h1]) hne

/-- A concrete 4-bit register holding 7, for exercising failed writes. -/
def regSample : Register := { name := "acc", maxValue := 15, value := 7 }

/-- A concrete phantom register over two 4-bit delegates. -/
def phantomSample : EightBitPhantomRegister :=
  { highReg := { name := "0", maxValue := 15, value := 3 },
    lowReg := { name := "1", maxValue := 15, value := 4 } }

/-- C5 witness: a 4-bit register write of 99 fails and leaves the register
holding 7; a phantom write of a non-int fails and leaves both delegates
unchanged. -/
theorem register_set_range_safety_check :
    (regSample.set (PyVal.int 99)).fst = regSample ∧
    (phantomSample.set PyVal.nonInt).fst = phantomSample := by
  constructor
  · exact (register_set_range_safety regSample (PyVal.int 99) phantomSample
      rfl rfl).2.1 (by decide)
  · exact (register_set_range_safety regSample PyVal.nonInt phantomSample
      rfl rfl).2.2.2 (by decide)

end Intel4004
